import Mathlib

/-!
Verification of the session/dedupe/staging pipeline of the
`personal_job_scrapper` repository, against its natural-language
specification.

The TypeScript sources are shallowly embedded here:

* `src/lib/dedupe.ts`   — `computeJobKey`, `loadSeenStore`, `saveSeenStore`
* `src/lib/csv.ts`      — `appendJobRows` and the fast-csv write/read model
* `src/lib/session.ts`  — `readSessionCsv`, `parseCsvLine`
* `src/lib/aiEvaluator.ts` — `findIrrelevantJobIds`, `evaluateJobDetail`,
  `processTitleResponse`, `sleepBackoff`
* `src/sites/dice/index.ts` and `src/sites/vanguard/index.ts` — the
  orchestrators: keyword staging, title-filter stage, detail evaluation,
  `writeSessionRoles`.

Modelling conventions: JavaScript `Set<string>` and `Map<string,·>` are
embedded as insertion-ordered duplicate-free association lists; file
contents are modelled at the granularity the code manipulates them
(newline-separated lines for CSV files, the parsed JSON value for
`seen.json`); network/AI calls are abstracted as oracles supplied per
attempt; `async` control flow is sequentialized exactly as the
single-threaded event loop executes it.
-/

namespace JobScraper

/-! JavaScript string methods, modelled structurally over the character
list of the string. -/

/-- JS `s.trim()`: strip leading and trailing whitespace. -/
def jsTrim (s : String) : String :=
  (((s.data.dropWhile Char.isWhitespace).reverse.dropWhile
    Char.isWhitespace).reverse).asString

/-- JS `s.toLowerCase()` (ASCII range, as used here). -/
def jsToLower (s : String) : String :=
  (s.data.map Char.toLower).asString

/-- JS `s.startsWith(pre)`. -/
def jsStartsWith (s pre : String) : Bool :=
  pre.data.isPrefixOf s.data

/-- JS `s.includes(c)` for a single character. -/
def jsIncludes (s : String) (c : Char) : Bool :=
  s.data.contains c

/-- JS `parts.join(",")`. -/
def joinComma : List String → String
  | [] => ""
  | [x] => x
  | x :: y :: xs => x ++ "," ++ joinComma (y :: xs)

/-- JS `Set.add`: appends the element unless already present
(insertion-ordered, duplicate-free). -/
def setAdd (s : List String) (k : String) : List String :=
  if k ∈ s then s else s ++ [k]

/-- JS `new Set(xs)`: deduplicate keeping first occurrences. -/
def setOfList (xs : List String) : List String :=
  xs.foldl setAdd []

/-- JS `Map.set`: replace the binding for `k`, or append a fresh one. -/
def mapSet (m : List (String × String)) (k v : String) : List (String × String) :=
  if m.any (fun p => p.1 = k) then
    m.map (fun p => if p.1 = k then (k, v) else p)
  else m ++ [(k, v)]

/-- `xs.slice(i, i + n)` batching: split a list into chunks of `n`
(mirrors the `for (let i = 0; i < xs.length; i += n)` loops). -/
def chunksOf (n : Nat) (l : List α) : List (List α) :=
  match l with
  | [] => []
  | x :: xs =>
    if n = 0 then []
    else (x :: xs).take n :: chunksOf n ((x :: xs).drop n)
termination_by l.length
decreasing_by
  simp only [List.length_drop, List.length_cons]
  omega

/-- `JobRow` of `src/lib/csv.ts`: one scraped job posting.  `job_id?` is
optional in TypeScript, hence `Option String` here. -/
structure JobRow where
  site : String
  title : String
  company : String
  location : String
  posted : String
  url : String
  job_id : Option String
  scraped_at : String
deriving Repr, DecidableEq

/-- `SessionRole` of the site orchestrators (`JobRow & giving session_id and
keyword`); the same ten fields are also the `SessionCsvRow` shape of
`src/lib/session.ts`, so one structure serves both. -/
structure SessionRole where
  session_id : String
  keyword : String
  site : String
  title : String
  company : String
  location : String
  posted : String
  url : String
  job_id : Option String
  scraped_at : String
deriving Repr, DecidableEq

/-- Forget the session annotations (the `...row` spread in reverse). -/
def SessionRole.toJobRow (r : SessionRole) : JobRow :=
  { site := r.site, title := r.title, company := r.company,
    location := r.location, posted := r.posted, url := r.url,
    job_id := r.job_id, scraped_at := r.scraped_at }

/-- The `...row` object spread staging a scraped `JobRow` under a session. -/
def mkSessionRole (row : JobRow) (sessionId keyword : String) : SessionRole :=
  { session_id := sessionId, keyword := keyword, site := row.site,
    title := row.title, company := row.company, location := row.location,
    posted := row.posted, url := row.url, job_id := row.job_id,
    scraped_at := row.scraped_at }

/-! ### SHA-1 (Node `crypto.createHash('sha1')`), over UTF-8 bytes

`computeJobKey` hashes `title|company|location|url` with SHA-1 and prints the
digest in lowercase hex.  The hash is embedded in full; no theorem depends on
its internals beyond it being a function. -/

/-- UTF-8 encoding of one character (code point to bytes). -/
def utf8EncodeChar (c : Char) : List Nat :=
  let n := c.toNat
  if n < 128 then [n]
  else if n < 2048 then [192 + n / 64, 128 + n % 64]
  else if n < 65536 then
    [224 + n / 4096, 128 + (n / 64) % 64, 128 + n % 64]
  else
    [240 + n / 262144, 128 + (n / 4096) % 64, 128 + (n / 64) % 64, 128 + n % 64]

/-- UTF-8 bytes of a string. -/
def utf8Bytes (s : String) : List Nat :=
  s.data.flatMap utf8EncodeChar

/-- Truncate to a 32-bit word. -/
def w32 (n : Nat) : Nat := n % 4294967296

/-- 32-bit left rotation. -/
def rotl (k n : Nat) : Nat :=
  w32 (n * 2 ^ k + n / 2 ^ (32 - k))

/-- 32-bit complement. -/
def not32 (n : Nat) : Nat := 4294967295 - w32 n

/-- SHA-1 padding: append `0x80`, zeros to 56 mod 64, then the bit length
as eight big-endian bytes. -/
def sha1Pad (msg : List Nat) : List Nat :=
  let bitLen := msg.length * 8
  let r := (msg.length + 1) % 64
  let zeros := (120 - r) % 64
  msg ++ [128] ++ List.replicate zeros 0 ++
    (List.range 8).map (fun i => bitLen / 2 ^ (8 * (7 - i)) % 256)

/-- Big-endian 32-bit word from four bytes. -/
def wordOfBytes (bs : List Nat) : Nat :=
  bs.foldl (fun acc b => acc * 256 + b) 0

/-- Extend the 16 message words of a chunk to the 80-word schedule. -/
def sha1Extend : Nat → List Nat → List Nat
  | 0, ws => ws
  | k + 1, ws =>
    let t := ws.length
    let next := rotl 1
      ((ws.getD (t - 3) 0 ^^^ ws.getD (t - 8) 0) ^^^
        (ws.getD (t - 14) 0 ^^^ ws.getD (t - 16) 0))
    sha1Extend k (ws ++ [next])

/-- The SHA-1 round function `f_t`. -/
def sha1F (t b c d : Nat) : Nat :=
  if t < 20 then (b &&& c) ||| (not32 b &&& d)
  else if t < 40 then (b ^^^ c) ^^^ d
  else if t < 60 then ((b &&& c) ||| (b &&& d)) ||| (c &&& d)
  else (b ^^^ c) ^^^ d

/-- The SHA-1 round constant `K_t`. -/
def sha1K (t : Nat) : Nat :=
  if t < 20 then 1518500249
  else if t < 40 then 1859775393
  else if t < 60 then 2400959708
  else 3395469782

/-- One SHA-1 round on the five-word working state. -/
def sha1Round (w : List Nat) (st : Nat × Nat × Nat × Nat × Nat) (t : Nat) :
    Nat × Nat × Nat × Nat × Nat :=
  let (a, b, c, d, e) := st
  let temp := w32 (rotl 5 a + sha1F t b c d + e + sha1K t + w.getD t 0)
  (temp, a, rotl 30 b, c, d)

/-- Compress one 64-byte chunk into the running digest. -/
def sha1Compress (h : Nat × Nat × Nat × Nat × Nat) (chunk : List Nat) :
    Nat × Nat × Nat × Nat × Nat :=
  let ws := sha1Extend 64 ((chunksOf 4 chunk).map wordOfBytes)
  let (h0, h1, h2, h3, h4) := h
  let (a, b, c, d, e) := (List.range 80).foldl (sha1Round ws) (h0, h1, h2, h3, h4)
  (w32 (h0 + a), w32 (h1 + b), w32 (h2 + c), w32 (h3 + d), w32 (h4 + e))

/-- Lowercase hex digit. -/
def hexDigit (n : Nat) : Char :=
  if n < 10 then Char.ofNat (48 + n) else Char.ofNat (87 + n)

/-- A 32-bit word as eight lowercase hex digits. -/
def wordToHex (n : Nat) : String :=
  String.mk ((List.range 8).map (fun i => hexDigit (n / 16 ^ (7 - i) % 16)))

/-- `crypto.createHash('sha1').update(s).digest('hex')`. -/
def sha1Hex (s : String) : String :=
  let padded := sha1Pad (utf8Bytes s)
  let (h0, h1, h2, h3, h4) :=
    (chunksOf 64 padded).foldl sha1Compress
      (1732584193, 4023233417, 2562383102, 271733878, 3285377520)
  wordToHex h0 ++ wordToHex h1 ++ wordToHex h2 ++ wordToHex h3 ++ wordToHex h4

/-! ### Dedupe Key Store (`src/lib/dedupe.ts`) -/

/-- JS truthiness of a string: nonempty. -/
def jsTruthy (s : String) : Bool := s ≠ ""

/-- The `title|company|location|url` content-hash base of `computeJobKey`. -/
def keyBase (row : JobRow) : String :=
  row.title ++ "|" ++ row.company ++ "|" ++ row.location ++ "|" ++ row.url

/-- `computeJobKey` of `src/lib/dedupe.ts`: the external `job_id` when
present and non-blank, otherwise the SHA-1 content hash of
`title|company|location|url`. -/
def computeJobKey (row : JobRow) : String :=
  match row.job_id with
  | some j => if jsTruthy j ∧ 0 < (jsTrim j).length then j else sha1Hex (keyBase row)
  | none => sha1Hex (keyBase row)

/-- `computeJobKey` applied to a staged role (structural subtyping in TS). -/
def computeRoleKey (r : SessionRole) : String :=
  computeJobKey r.toJobRow

/-! ### Seen Store persistence (`loadSeenStore` / `saveSeenStore`)

The file is modelled at the JSON level: the store writes
`JSON.stringify(Array.from(seen).sort(), null, 2)`, so the persisted value
is a JSON array of strings; reading can also hit a missing file, an I/O
error, or malformed JSON. -/

/-- The observable state of `seen.json` when `loadSeenStore` reads it. -/
inductive SeenFile where
  | absent
  | ioError (e : String)
  | stringArray (xs : List String)
  | malformed
deriving Repr, DecidableEq

/-- `loadSeenStore`: `ENOENT` yields the empty set, any other I/O error or
JSON parse error propagates, and a string-array payload becomes
`new Set(data)`. -/
def loadSeenStore : SeenFile → Except String (List String)
  | .absent => .ok []
  | .ioError e => .error e
  | .stringArray xs => .ok (setOfList xs)
  | .malformed => .error "SyntaxError: Unexpected token in JSON"

/-- `saveSeenStore` (payload only): `Array.from(seen).sort()`, the sorted
list of keys serialized into the JSON array. -/
def saveSeenStore (seen : List String) : List String :=
  List.insertionSort (· ≤ ·) seen

/-! ### CSV line parsing

`parseCsvLine` of `src/lib/session.ts`, one character at a time with a
quote flag; the `@fast-csv/parse` library used by `src/lib/csv.ts` is
modelled by the same split followed by the `trim: true` per-field trim. -/

/-- Character loop of `parseCsvLine`: `current` is the field being
accumulated, `inQuotes` the quote flag; a doubled quote inside quotes is a
literal quote, a lone quote toggles the flag, an unquoted comma ends the
field. -/
def parseCsvChars : List Char → Bool → List Char → List (List Char)
  | [], _, current => [current]
  | '"' :: '"' :: rest2, true, current => parseCsvChars rest2 true (current ++ ['"'])
  | '"' :: rest, true, current => parseCsvChars rest false current
  | '"' :: rest, false, current => parseCsvChars rest true current
  | c :: rest, inQuotes, current =>
    if c = ',' ∧ inQuotes = false then
      current :: parseCsvChars rest false []
    else
      parseCsvChars rest inQuotes (current ++ [c])

/-- `parseCsvLine` of `src/lib/session.ts`. -/
def parseCsvLine (line : String) : List String :=
  (parseCsvChars line.data false []).map List.asString

/-! ### Session Staging Store

`writeSessionRoles` (`src/sites/dice/index.ts`, identically in
`src/sites/vanguard/index.ts`) and `readSessionCsv`
(`src/lib/session.ts`).  File contents are modelled as the list of
newline-separated lines: the writer joins lines with a newline and appends
a final newline (hence the trailing empty line), the reader splits on
newlines first. -/

/-- `value.replace of quote by doubled quote` (global). -/
def dupQuotes (s : String) : String :=
  (s.data.flatMap (fun c => if c = '"' then ['"', '"'] else [c])).asString

/-- `escapeCsv` of the site orchestrators: empty stays empty, a value
without a comma is written raw, and only comma-carrying values are wrapped
in quotes (with embedded quotes doubled). -/
def escapeCsv (value : String) : String :=
  if ¬ jsTruthy value then ""
  else if ¬ jsIncludes value ',' then value
  else "\"" ++ dupQuotes value ++ "\""

/-- The staging-file header columns. -/
def sessionHeaders : List String :=
  ["session_id", "keyword", "site", "title", "company", "location",
   "posted", "url", "job_id", "scraped_at"]

/-- `headers.join(",")`. -/
def sessionHeaderLine : String := joinComma sessionHeaders

/-- One staged row serialized by `writeSessionRoles`: only `title`,
`company`, `location` and `posted` go through `escapeCsv`; the remaining
six fields are joined raw. -/
def sessionRoleLine (row : SessionRole) : String :=
  joinComma
    [row.session_id, row.keyword, row.site, escapeCsv row.title,
     escapeCsv row.company, escapeCsv row.location, escapeCsv row.posted,
     row.url, row.job_id.getD "", row.scraped_at]

/-- `writeSessionRoles`: header, one line per row, and the final newline of
`payload + "\n"` (an empty trailing line). -/
def writeSessionRoles (rows : List SessionRole) : List String :=
  sessionHeaderLine :: (rows.map sessionRoleLine ++ [""])

/-- The body of the `readSessionCsv` row loop: under ten cells drops the
row, a falsy `url` drops the row, and an empty `job_id` cell becomes
`undefined`. -/
def parseSessionRow (cells : List String) : Option SessionRole :=
  if cells.length < 10 then none
  else if ¬ jsTruthy (cells.getD 7 "") then none
  else some
    { session_id := cells.getD 0 "", keyword := cells.getD 1 "",
      site := cells.getD 2 "", title := cells.getD 3 "",
      company := cells.getD 4 "", location := cells.getD 5 "",
      posted := cells.getD 6 "", url := cells.getD 7 "",
      job_id := if jsTruthy (cells.getD 8 "") then some (cells.getD 8 "") else none,
      scraped_at := cells.getD 9 "" }

/-- `readSessionCsv`: whitespace-only contents short-circuit to `[]`;
otherwise lines are trimmed, blank lines dropped, header lines (lowercase
prefix `session_id,`) skipped, and each remaining line parsed. -/
def readSessionCsv (contentLines : List String) : List SessionRole :=
  if contentLines.all (fun l => jsTrim l = "") then []
  else
    (((contentLines.map jsTrim).filter (fun l => l ≠ "")).filterMap
      (fun line =>
        if jsStartsWith (jsToLower line) "session_id," then none
        else parseSessionRow (parseCsvLine line)))

/-! ### Output Store (`src/lib/csv.ts`)

`appendJobRows` with the `@fast-csv` format/parse pair.  The fast-csv
formatter quotes a field exactly when it contains the delimiter, a quote,
or a row delimiter character; the parser is the standard doubled-quote CSV
split followed by the `trim: true` per-field trim.  Contents are again the
list of lines. -/

/-- The output-file header columns (`CSV_HEADERS`). -/
def csvHeaders : List String :=
  ["site", "title", "company", "location", "posted", "url", "job_id", "scraped_at"]

/-- The output header line. -/
def csvHeaderLine : String := joinComma csvHeaders

/-- A `JobRow`'s field values in header order (`job_id` as the empty
string when absent, as `normalizeRow` guarantees). -/
def jobRowFields (r : JobRow) : List String :=
  [r.site, r.title, r.company, r.location, r.posted, r.url,
   r.job_id.getD "", r.scraped_at]

/-- `normalizeRow`: every string field defaulted with `?? ''`; only the
optional `job_id` can actually change (`undefined` becomes `''`). -/
def normalizeRow (r : JobRow) : JobRow :=
  { site := r.site, title := r.title, company := r.company,
    location := r.location, posted := r.posted, url := r.url,
    job_id := some (r.job_id.getD ""), scraped_at := r.scraped_at }

/-- fast-csv default quoting trigger: delimiter, quote, or row delimiter
present in the field. -/
def fcNeedsQuote (s : String) : Bool :=
  jsIncludes s ',' || jsIncludes s '"' || jsIncludes s '\n' || jsIncludes s '\r'

/-- fast-csv field formatting: quote-wrap (doubling quotes) when needed. -/
def fcFormatField (s : String) : String :=
  if fcNeedsQuote s then "\"" ++ dupQuotes s ++ "\"" else s

/-- fast-csv row formatting under `CSV_HEADERS`. -/
def fcFormatRow (r : JobRow) : String :=
  joinComma ((jobRowFields r).map fcFormatField)

/-- `writeRows`: header first, then each row, no trailing row delimiter. -/
def writeRows (rows : List JobRow) : List String :=
  csvHeaderLine :: rows.map fcFormatRow

/-- fast-csv parse of one line with `trim: true`. -/
def fcParseLine (line : String) : List String :=
  (parseCsvLine line).map jsTrim

/-- `normalizeParsedRow` on positional cells (the files carry
`CSV_HEADERS` order; a missing `job_id`/`jobId` cell becomes `''`). -/
def normalizeParsedRow (cells : List String) : JobRow :=
  { site := cells.getD 0 "", title := cells.getD 1 "",
    company := cells.getD 2 "", location := cells.getD 3 "",
    posted := cells.getD 4 "", url := cells.getD 5 "",
    job_id := some (cells.getD 6 ""), scraped_at := cells.getD 7 "" }

/-- `parseExistingContent` (`headers: true`): the first line is consumed
as the header row, the rest become rows. -/
def parseExistingContent (contentLines : List String) : List JobRow :=
  match contentLines with
  | [] => []
  | _header :: dataLines => dataLines.map (fun l => normalizeParsedRow (fcParseLine l))

/-- `appendJobRows`: empty input returns at once; otherwise normalize the
new rows, read the existing rows (`ENOENT` as none), and rewrite the file
with the new rows prepended.  `none` models an absent file. -/
def appendJobRows (file : Option (List String)) (rows : List JobRow) :
    Option (List String) :=
  if rows.isEmpty then file
  else
    let sanitizedNewRows := rows.map normalizeRow
    let existingRows := match file with
      | none => []
      | some c => parseExistingContent c
    some (writeRows (sanitizedNewRows ++ existingRows))

/-! ### Title Filter Stage (`src/lib/aiEvaluator.ts`)

Model calls are abstracted as an oracle giving, per batch index and per
attempt number, either a parsed `AiIrrelevantResponse` or a thrown error.
The backoff sleeps between failed title attempts carry no state and are
not tracked here (the detail stage below tracks its sleeps, where the
claims need them). -/

/-- `TitleEntry`: the metadata-only payload of the title stage. -/
structure TitleEntry where
  title : String
  company : String
  location : String
  url : String
  job_id : String
deriving Repr, DecidableEq

/-- A parsed `remove` entry of the AI response. -/
structure RemoveEntry where
  job_id : Option String
  reason : Option String
deriving Repr, DecidableEq

/-- `AiIrrelevantResponse`: both fields optional. -/
structure AiIrrelevantResponse where
  remove : Option (List RemoveEntry)
  removeJobIds : Option (List String)
deriving Repr, DecidableEq

/-- `TitleFilterResult`: the removal set and the reasons map. -/
structure TitleFilterResult where
  removalSet : List String
  reasons : List (String × String)
deriving Repr, DecidableEq

/-- The `remove` loop body of `processTitleResponse`: a trimmed non-blank
id enters the removal set with its trimmed reason (or a default). -/
def removeEntryStep (acc : TitleFilterResult) (entry : RemoveEntry) :
    TitleFilterResult :=
  if jsTrim (entry.job_id.getD "") = "" then acc
  else
    { removalSet := setAdd acc.removalSet (jsTrim (entry.job_id.getD "")),
      reasons := mapSet acc.reasons (jsTrim (entry.job_id.getD ""))
        (match entry.reason with
          | some r => if 0 < (jsTrim r).length then jsTrim r
                      else "Marked irrelevant."
          | none => "Marked irrelevant.") }

/-- The `removeJobIds` loop body of `processTitleResponse`. -/
def removeIdStep (acc : TitleFilterResult) (id : String) : TitleFilterResult :=
  if jsTruthy (jsTrim id) then
    { acc with removalSet := setAdd acc.removalSet (jsTrim id) }
  else acc

/-- `processTitleResponse` proper: fold the two optional arrays in order. -/
def processTitleResponse (parsed : AiIrrelevantResponse)
    (st : TitleFilterResult) : TitleFilterResult :=
  let st1 := match parsed.remove with
    | some entries => entries.foldl removeEntryStep st
    | none => st
  match parsed.removeJobIds with
  | some ids => ids.foldl removeIdStep st1
  | none => st1

/-- `BATCH_SIZE` of `findIrrelevantJobIds`. -/
def titleBatchSize : Nat := 50

/-- The per-batch attempt loop (attempts 1–4 across the model fallback
chain): each attempt issues one classification request; the first success
returns the response together with the number of requests spent; four
failures throw the last error. -/
def runTitleBatch (oracle : Nat → Except String AiIrrelevantResponse)
    (attempt : Nat) (lastError : Option String) :
    Except String (AiIrrelevantResponse × Nat) :=
  if 4 < attempt then
    .error (lastError.getD "Title AI filter failed after retries.")
  else match oracle attempt with
    | .ok resp => .ok (resp, attempt)
    | .error e => runTitleBatch oracle (attempt + 1) (some e)
termination_by 5 - attempt

/-- The `for (let i = 0; i < entries.length; i += BATCH_SIZE)` loop:
processes batches in order, accumulating the combined result and the
total number of requests; a batch that exhausts its attempts rethrows. -/
def titleBatchesLoop (oracle : Nat → Nat → Except String AiIrrelevantResponse)
    (i : Nat) (batches : List (List TitleEntry)) (st : TitleFilterResult)
    (requests : Nat) : Except String (TitleFilterResult × Nat) :=
  match batches with
  | [] => .ok (st, requests)
  | _b :: rest =>
    match runTitleBatch (oracle i) 1 none with
    | .error e => .error e
    | .ok (resp, n) =>
      titleBatchesLoop oracle (i + 1) rest (processTitleResponse resp st) (requests + n)

/-- `findIrrelevantJobIds`: empty entries return the empty result without
any request; missing prompts throw before any request; otherwise the
batches are processed in order. -/
def findIrrelevantJobIds (prompts : List String)
    (oracle : Nat → Nat → Except String AiIrrelevantResponse)
    (entries : List TitleEntry) : Except String (TitleFilterResult × Nat) :=
  if entries.isEmpty then .ok (⟨[], []⟩, 0)
  else if prompts.isEmpty then
    .error "Title filter prompts not found in config.json."
  else titleBatchesLoop oracle 0 (chunksOf titleBatchSize entries) ⟨[], []⟩ 0

/-! ### Detail Evaluation Stage (`evaluateJobDetail`, `sleepBackoff`) -/

/-- The parsed accept/reject verdict of a successful model call. -/
structure DetailVerdict where
  accepted : Bool
  reasoning : String
deriving Repr, DecidableEq

/-- `sleepBackoff`: the delay in milliseconds slept after failed attempt
number `attempt`. -/
def sleepBackoff (attempt : Nat) : Nat := attempt * 5000

/-- The attempt loop of `evaluateJobDetail` (attempts 1–4 across the model
fallback chain): a success returns at once; a failure records the error,
sleeps `sleepBackoff attempt` when more attempts remain, and retries; four
failures rethrow the last error.  Returns the outcome together with the
list of backoff delays slept, in order. -/
def evaluateJobDetailLoop (oracle : Nat → Except String DetailVerdict)
    (attempt : Nat) (lastError : Option String) :
    Except String DetailVerdict × List Nat :=
  if 4 < attempt then
    (.error (lastError.getD "Detail AI evaluation failed after retries."), [])
  else match oracle attempt with
    | .ok v => (.ok v, [])
    | .error e =>
      let next := evaluateJobDetailLoop oracle (attempt + 1) (some e)
      (next.1, if attempt < 4 then sleepBackoff attempt :: next.2 else next.2)
termination_by 5 - attempt

/-- `evaluateJobDetail`: missing prompts throw before any attempt;
otherwise the attempt loop runs from attempt 1. -/
def evaluateJobDetail (prompts : List String)
    (oracle : Nat → Except String DetailVerdict) :
    Except String DetailVerdict × List Nat :=
  if prompts.isEmpty then
    (.error "Detail evaluation prompts not found in config.json.", [])
  else evaluateJobDetailLoop oracle 1 none

/-! ### Pipeline Orchestrator (`src/sites/dice/index.ts`,
`src/sites/vanguard/index.ts`)

Keyword scraping, the title-filter block, and the serial detail-evaluation
loop.  Browser navigation and the per-candidate outcome of the detail
stage (navigation error, employment-type rejection, thrown AI failure, or
a verdict) are abstracted per role. -/

/-- `staged.has(k)` on the insertion-ordered staged map. -/
def stagedHas (staged : List (String × SessionRole)) (k : String) : Bool :=
  staged.any (fun p => p.1 = k)

/-- `staged.get(k)`: the first (and only) binding for `k`. -/
def stagedFind (staged : List (String × SessionRole)) (k : String) :
    Option SessionRole :=
  (staged.find? (fun p => p.1 = k)).map (fun p => p.2)

/-- One iteration of the staging loop of `scrapeKeywordInNewPage`
(identical in dice and vanguard): the scraped row is admitted only when
its Dedupe Key is absent from both the Seen Store and the staged map. -/
def stageStep (seen : List String) (sessionId keyword : String)
    (st : List (String × SessionRole)) (row : JobRow) :
    List (String × SessionRole) :=
  if seen.contains (computeJobKey row) || stagedHas st (computeJobKey row) then st
  else st ++ [(computeJobKey row, mkSessionRole row sessionId keyword)]

/-- The staging loop over one keyword's scraped rows. -/
def stageScrapedRows (seen : List String) (sessionId keyword : String)
    (rows : List JobRow) (staged : List (String × SessionRole)) :
    List (String × SessionRole) :=
  rows.foldl (stageStep seen sessionId keyword) staged

/-- `scrapeKeywordsInBatches`, flattened to the order in which the
single-threaded staging loops commit: each keyword contributes its scraped
rows, starting from the empty staged map.  The Seen Store is not mutated
during scraping. -/
def scrapeRun (seen : List String) (sessionId : String)
    (keywordRows : List (String × List JobRow)) : List (String × SessionRole) :=
  keywordRows.foldl
    (fun staged kr => stageScrapedRows seen sessionId kr.1 kr.2 staged) []

/-- `row.job_id ?? row.url`: the id handed to (and returned by) the title
filter for a staged row. -/
def titleKey (row : SessionRole) : String := row.job_id.getD row.url

/-- Result of a site's title-filter block: the Seen Store afterwards and
the narrowed snapshot rewritten to the roles file. -/
structure TitleStageResult where
  seenAfter : List String
  postSnapshot : List SessionRole
deriving Repr, DecidableEq

/-- The dice title-filter block (`runDiceSite`): rejections are logged,
the staged array is narrowed by `removalSet`, and the narrowed snapshot is
rewritten; the Seen Store is not touched in this block. -/
def diceTitleStage (seen : List String) (stagedArray : List SessionRole)
    (removalSet : List String) : TitleStageResult :=
  let filtered := stagedArray.filter (fun row => ! removalSet.contains (titleKey row))
  { seenAfter := seen, postSnapshot := filtered }

/-- One iteration of the vanguard rejection-logging loop: a title-rejected
row's Dedupe Key is added to the Seen Store. -/
def vanguardRejectStep (removalSet : List String) (s : List String)
    (row : SessionRole) : List String :=
  if removalSet.contains (titleKey row) then setAdd s (computeRoleKey row)
  else s

/-- The vanguard title-filter block (`runVanguardSite`): additionally,
when the removal set is nonempty, every staged row whose title key is in
it has its Dedupe Key added to the Seen Store during the rejection-logging
loop. -/
def vanguardTitleStage (seen : List String) (stagedArray : List SessionRole)
    (removalSet : List String) : TitleStageResult :=
  let seen1 :=
    if removalSet.isEmpty then seen
    else stagedArray.foldl (vanguardRejectStep removalSet) seen
  let filtered := stagedArray.filter (fun row => ! removalSet.contains (titleKey row))
  { seenAfter := seen1, postSnapshot := filtered }

/-- Per-candidate outcome of the detail-evaluation body in
`evaluateDetailedJobs`: a thrown error (navigation, extraction, or
`evaluateJobDetail` exhausting its attempts) which the orchestrator
catches; the dice employment-type rejection; or a model verdict. -/
inductive DetailOutcome where
  | thrown (e : String)
  | fullTimeReject
  | verdict (v : DetailVerdict)
deriving Repr, DecidableEq

/-- One iteration of the `evaluateDetailedJobs` candidate loop (dice).  A
thrown error is caught and the loop continues; a rejection leaves the
state unchanged; an accepted verdict commits the key to the Seen Store
(unless already present) and collects the row. -/
def detailStep (outcome : SessionRole → DetailOutcome)
    (st : List String × List SessionRole) (role : SessionRole) :
    List String × List SessionRole :=
  match outcome role with
  | .thrown _ => st
  | .fullTimeReject => st
  | .verdict v =>
    if v.accepted = false then st
    else if st.1.contains (computeRoleKey role) then st
    else (setAdd st.1 (computeRoleKey role), st.2 ++ [role])

/-- `evaluateDetailedJobs` proper: the serial fold over the candidates. -/
def evaluateDetailedJobs (outcome : SessionRole → DetailOutcome)
    (roles : List SessionRole) (seen : List String) :
    List String × List SessionRole :=
  roles.foldl (detailStep outcome) (seen, [])

/-- The dice run resumed from a session (`runDiceSite` after the staged
array is read back): empty staged array ends the run; a title-filter
failure aborts; an empty narrowed set ends the run; otherwise detail
evaluation runs and `appendJobRows` is invoked exactly when the accepted
list is nonempty.  `some rows` means the canonical output CSV is written
with `rows`; `none` means it is never written. -/
def runDiceResumed (seen : List String) (stagedArray : List SessionRole)
    (titleOutcome : Except String (List String))
    (outcome : SessionRole → DetailOutcome) : Option (List SessionRole) :=
  if stagedArray.isEmpty then none
  else match titleOutcome with
    | .error _ => none
    | .ok removalSet =>
      let stage := diceTitleStage seen stagedArray removalSet
      if stage.postSnapshot.isEmpty then none
      else
        let acceptedRows :=
          (evaluateDetailedJobs outcome stage.postSnapshot stage.seenAfter).2
        if acceptedRows.isEmpty then none
        else some acceptedRows

/-- Sample rows for concrete instantiations. -/
def sampleRowA : JobRow :=
  { site := "dice", title := "Backend Engineer", company := "Acme",
    location := "Remote", posted := "today", url := "https://example.com/1",
    job_id := some "J1", scraped_at := "9:00 AM ET" }

/-- `sampleRowA` with a different capture timestamp only. -/
def sampleRowB : JobRow := { sampleRowA with scraped_at := "9:05 AM ET" }

/-- `sampleRowA` with the external id absent. -/
def sampleRowC : JobRow := { sampleRowA with job_id := none }

/-- A staged role carrying external id `job-7`. -/
def roleJ7 : SessionRole :=
  { session_id := "s1", keyword := "java", site := "dice",
    title := "Data Engineer", company := "Acme", location := "Remote",
    posted := "today", url := "https://example.com/j7",
    job_id := some "job-7", scraped_at := "t" }

/-- A scraped row carrying external id `job-42`. -/
def sampleRow42 : JobRow :=
  { site := "dice", title := "Java Engineer", company := "Acme",
    location := "Remote", posted := "today", url := "https://example.com/42",
    job_id := some "job-42", scraped_at := "t" }

/-! ### Loop specifications and well-formedness predicates used below -/

/-- The combined result of processing responses `resp i, …, resp (i+n-1)`
in order: the specification of the batch loop on the success path. -/
def foldResponses (resp : Nat → AiIrrelevantResponse) (i : Nat) :
    Nat → TitleFilterResult → TitleFilterResult
  | 0, st => st
  | n + 1, st => foldResponses resp (i + 1) n (processTitleResponse (resp i) st)

/-- Quote doubling at the character level (`dupQuotes` on `.data`). -/
def dupChars (l : List Char) : List Char :=
  l.flatMap (fun c => if c = '"' then ['"', '"'] else [c])

/-- `w` serializes the field value `f`: consuming `w`'s characters before
an end-of-line or a comma accumulates exactly `f`'s characters. -/
def fieldEncodes (w f : String) : Prop :=
  ∀ (rest cur : List Char), (rest = [] ∨ ∃ r', rest = ',' :: r') →
    parseCsvChars (w.data ++ rest) false cur = parseCsvChars rest false (cur ++ f.data)

/-- Well-formedness of an output row for the CSV round trip: every field
carries no surrounding whitespace (the parser runs with `trim: true`) and
no newline (fields live on one line of the file), and `job_id` is present
(`normalizeRow` guarantees this for everything the writer ever receives
back from the parser). -/
def rowWellFormed (row : JobRow) : Prop :=
  (∀ f ∈ jobRowFields row, jsTrim f = f ∧ '\n' ∉ f.data) ∧
  row.job_id.isSome = true

instance (row : JobRow) : Decidable (rowWellFormed row) := by
  unfold rowWellFormed
  infer_instance

/-- Existing output row `A` (newest before the append). -/
def rowA5 : JobRow :=
  { site := "dice", title := "Platform Engineer", company := "Acme",
    location := "Remote", posted := "today", url := "https://example.com/a",
    job_id := some "A1", scraped_at := "8:00 AM ET" }

/-- Existing output row `B`. -/
def rowB5 : JobRow :=
  { site := "dice", title := "SRE", company := "Globex",
    location := "Austin, TX", posted := "today", url := "https://example.com/b",
    job_id := some "B1", scraped_at := "8:05 AM ET" }

/-- New row `C`, with an embedded comma exercising the quoting path. -/
def rowC5 : JobRow :=
  { site := "dice", title := "Developer, Senior", company := "Initech",
    location := "Remote", posted := "today", url := "https://example.com/c",
    job_id := some "C1", scraped_at := "9:00 AM ET" }

/-- New row `D`. -/
def rowD5 : JobRow :=
  { site := "dice", title := "Data Scientist", company := "Hooli",
    location := "NYC", posted := "today", url := "https://example.com/d",
    job_id := some "D1", scraped_at := "9:01 AM ET" }

/-- The ten field values of a staged row, in file order. -/
def sessionFields (r : SessionRole) : List String :=
  [r.session_id, r.keyword, r.site, r.title, r.company, r.location,
   r.posted, r.url, r.job_id.getD "", r.scraped_at]

/-- The fields `writeSessionRoles` joins raw (no `escapeCsv`). -/
def sessionRawFields (r : SessionRole) : List String :=
  [r.session_id, r.keyword, r.site, r.url, r.job_id.getD "", r.scraped_at]

/-- Well-formedness of a staged row for the session round trip: fields
free of double quotes and newlines, raw-written fields free of commas, a
non-empty `url`, a serialized line unchanged by whitespace trimming, and
a serialized line not mistaken for the header. -/
def roleWellFormed (r : SessionRole) : Prop :=
  (∀ f ∈ sessionFields r, '"' ∉ f.data ∧ '\n' ∉ f.data) ∧
  (∀ f ∈ sessionRawFields r, ',' ∉ f.data) ∧
  jsTruthy r.url = true ∧
  jsTrim (sessionRoleLine r) = sessionRoleLine r ∧
  jsStartsWith (jsToLower (sessionRoleLine r)) "session_id," = false

instance (r : SessionRole) : Decidable (roleWellFormed r) := by
  unfold roleWellFormed
  infer_instance

/-- What a staged row looks like after one write/read cycle: only a
present-but-empty `job_id` degrades to `undefined`. -/
def canonRole (r : SessionRole) : SessionRole :=
  { r with job_id := if jsTruthy (r.job_id.getD "") then some (r.job_id.getD "")
                     else none }

/-- A staged role whose title contains a double quote (and no comma). -/
def roleQ : SessionRole :=
  { session_id := "s1", keyword := "k", site := "dice",
    title := "a\"b", company := "c", location := "l", posted := "p",
    url := "https://x", job_id := some "J1", scraped_at := "t" }

theorem setAdd_mem (s : List String) (k a : String) :
    a ∈ setAdd s k ↔ a ∈ s ∨ a = k := by
  unfold setAdd
  split
  · next h =>
      constructor
      · exact fun h' => Or.inl h'
      · rintro (h' | rfl) <;> assumption
  · simp

theorem mem_setAdd_self (s : List String) (k : String) : k ∈ setAdd s k := by
  rw [setAdd_mem]; exact Or.inr rfl

theorem mem_setAdd_of_mem (s : List String) (k a : String) (h : a ∈ s) :
    a ∈ setAdd s k := by
  rw [setAdd_mem]; exact Or.inl h

/-- Number of chunks is the ceiling `⌈len / n⌉` (for positive `n`). -/
theorem chunksOf_length (n : Nat) (hn : 0 < n) (l : List α) :
    (chunksOf n l).length = (l.length + n - 1) / n := by
  generalize hN : l.length = N
  induction N using Nat.strong_induction_on generalizing l with
  | _ N ih =>
    subst hN
    match l with
    | [] =>
      simp only [chunksOf, List.length_nil, Nat.zero_add]
      rw [Nat.div_eq_of_lt (by omega)]
    | x :: xs =>
      rw [chunksOf]
      simp only [if_neg (Nat.pos_iff_ne_zero.mp hn), List.length_cons]
      rw [ih ((x :: xs).drop n).length
            (by simp only [List.length_drop, List.length_cons]; omega)
            ((x :: xs).drop n) rfl]
      simp only [List.length_drop, List.length_cons]
      rcases le_or_lt (xs.length + 1) n with hle | hlt
      · have h1 : xs.length + 1 - n = 0 := by omega
        have h2 : (xs.length + 1 + n - 1) / n = 1 :=
          Nat.div_eq_of_lt_le (by omega) (by omega)
        rw [h1, h2]
        simp only [List.length_nil, Nat.zero_add]
        rw [Nat.div_eq_of_lt (by omega)]
      · have h3 : xs.length + 1 + n - 1 = (xs.length + 1 - n + n - 1) + n := by omega
        rw [h3, Nat.add_div_right _ hn, Nat.add_comm]

/-! ## Theorems -/

theorem contains_eq_mem (l : List String) (a : String) :
    l.contains a = true ↔ a ∈ l :=
  List.elem_iff

theorem find?_append_of_isSome {α : Type} (l₁ l₂ : List α) (p : α → Bool)
    (h : (l₁.find? p).isSome) : (l₁ ++ l₂).find? p = l₁.find? p := by
  induction l₁ with
  | nil => simp at h
  | cons a l ih =>
    by_cases hp : p a = true
    · simp [List.find?_cons, hp]
    · simp only [List.find?_cons, hp] at h
      simp [List.find?_cons, hp, ih h]

/-! ### C10 — appending no rows is a no-op -/

/-- C10: `appendJobRows` called with an empty row list returns immediately
and leaves the output file (present or absent) exactly as it was. -/
theorem appendJobRows_empty_noop (file : Option (List String)) :
    appendJobRows file [] = file := by
  simp [appendJobRows]

/-! ### C3 — `computeJobKey` is pure and stable -/

/-- C3: `computeJobKey` is a pure function, so repeated calls agree;
records that agree on `title`, `company`, `location`, `url` and `job_id`
(in particular records differing only in `scraped_at`) get equal keys;
a present non-blank `job_id` is itself the key (so records with the same
non-blank `job_id` share a key); an absent or blank `job_id` makes the key
the SHA-1 content hash of `title|company|location|url`. -/
theorem computeJobKey_pure_stable (r₁ r₂ : JobRow) :
    (computeJobKey r₁ = computeJobKey r₁) ∧
    (r₁.title = r₂.title → r₁.company = r₂.company →
      r₁.location = r₂.location → r₁.url = r₂.url → r₁.job_id = r₂.job_id →
      computeJobKey r₁ = computeJobKey r₂) ∧
    (∀ j, r₁.job_id = some j → jsTruthy j → 0 < (jsTrim j).length →
      computeJobKey r₁ = j) ∧
    ((r₁.job_id = none ∨ ∃ j, r₁.job_id = some j ∧ jsTrim j = "") →
      computeJobKey r₁ = sha1Hex (keyBase r₁)) := by
  refine ⟨rfl, ?_, ?_, ?_⟩
  · intro ht hc hl hu hj
    have hkb : keyBase r₁ = keyBase r₂ := by simp [keyBase, ht, hc, hl, hu]
    simp only [computeJobKey, hj, hkb]
  · intro j hj htr hlen
    simp [computeJobKey, hj, htr, hlen]
  · rintro (hnone | ⟨j, hj, htr⟩)
    · simp [computeJobKey, hnone]
    · simp [computeJobKey, hj, htr]

/-- C3 witness: concrete rows differing only in `scraped_at` share the key
`J1`; with the id removed, the key is the content hash. -/
theorem computeJobKey_pure_stable_witness :
    computeJobKey sampleRowA = computeJobKey sampleRowB ∧
    computeJobKey sampleRowA = "J1" ∧
    computeJobKey sampleRowC = sha1Hex (keyBase sampleRowC) :=
  ⟨(computeJobKey_pure_stable sampleRowA sampleRowB).2.1 rfl rfl rfl rfl rfl,
   (computeJobKey_pure_stable sampleRowA sampleRowA).2.2.1 "J1" rfl
     (by decide) (by decide),
   (computeJobKey_pure_stable sampleRowC sampleRowC).2.2.2 (Or.inl rfl)⟩

/-! ### C1 — Seen Store keys never enter the staged map -/

theorem stagedHas_append (staged : List (String × SessionRole))
    (x : String × SessionRole) (k : String) :
    stagedHas (staged ++ [x]) k = (stagedHas staged k || (x.1 = k)) := by
  simp [stagedHas]

theorem stageStep_not_staged (seen : List String) (sessionId keyword : String)
    (k : String) (hk : k ∈ seen) (staged : List (String × SessionRole))
    (row : JobRow) (h : stagedHas staged k = false) :
    stagedHas (stageStep seen sessionId keyword staged row) k = false := by
  unfold stageStep
  split
  · exact h
  · next hcond =>
    rw [stagedHas_append, h, Bool.false_or]
    have hnotseen : computeJobKey row ∉ seen := by
      intro hmem
      exact hcond (by simp; exact Or.inl hmem)
    simp only [decide_eq_false_iff_not]
    intro heq
    exact hnotseen (by rw [heq]; exact hk)

theorem stageScrapedRows_cons (seen : List String)
    (sessionId keyword : String) (row : JobRow) (rows : List JobRow)
    (staged : List (String × SessionRole)) :
    stageScrapedRows seen sessionId keyword (row :: rows) staged =
      stageScrapedRows seen sessionId keyword rows
        (stageStep seen sessionId keyword staged row) := rfl

theorem stageScrapedRows_not_staged (seen : List String)
    (sessionId keyword : String) (k : String) (hk : k ∈ seen)
    (rows : List JobRow) :
    ∀ staged, stagedHas staged k = false →
      stagedHas (stageScrapedRows seen sessionId keyword rows staged) k = false := by
  induction rows with
  | nil => intro staged h; exact h
  | cons row rows ih =>
    intro staged h
    rw [stageScrapedRows_cons]
    exact ih _ (stageStep_not_staged seen sessionId keyword k hk staged row h)

theorem stageStep_find_preserved (seen : List String)
    (sessionId keyword : String) (k : String)
    (staged : List (String × SessionRole)) (row : JobRow)
    (h : stagedHas staged k = true) :
    stagedFind (stageStep seen sessionId keyword staged row) k = stagedFind staged k ∧
    stagedHas (stageStep seen sessionId keyword staged row) k = true := by
  unfold stageStep
  split
  · exact ⟨rfl, h⟩
  · constructor
    · unfold stagedFind
      rw [find?_append_of_isSome]
      rw [List.find?_isSome]
      unfold stagedHas at h
      rw [List.any_eq_true] at h
      obtain ⟨p, hp, hpk⟩ := h
      exact ⟨p, hp, hpk⟩
    · rw [stagedHas_append, h, Bool.true_or]

theorem evaluateDetailedJobs_cons (outcome : SessionRole → DetailOutcome)
    (role : SessionRole) (roles : List SessionRole)
    (st : List String × List SessionRole) :
    (role :: roles).foldl (detailStep outcome) st =
      roles.foldl (detailStep outcome) (detailStep outcome st role) := rfl

theorem stageScrapedRows_find_preserved (seen : List String)
    (sessionId keyword : String) (k : String) (rows : List JobRow) :
    ∀ staged, stagedHas staged k = true →
      stagedFind (stageScrapedRows seen sessionId keyword rows staged) k =
        stagedFind staged k := by
  induction rows with
  | nil => intro staged _; rfl
  | cons row rows ih =>
    intro staged h
    rw [stageScrapedRows_cons]
    obtain ⟨hfind, hhas⟩ := stageStep_find_preserved seen sessionId keyword k staged row h
    rw [ih _ hhas, hfind]

/-- C1: a Dedupe Key present in the Seen Store at run start never enters
the staged map during scraping, and once a key occupies the staged map its
record is never replaced (first-write-wins): admission requires absence
from both the Seen Store and the staged map. -/
theorem staging_no_reprocessing (seen : List String) (sessionId : String)
    (keywordRows : List (String × List JobRow)) (k : String) (hk : k ∈ seen) :
    stagedHas (scrapeRun seen sessionId keywordRows) k = false ∧
    (∀ keyword rows staged, stagedHas staged k = true →
      stagedFind (stageScrapedRows seen sessionId keyword rows staged) k =
        stagedFind staged k) := by
  constructor
  · have main : ∀ (krs : List (String × List JobRow)) staged,
        stagedHas staged k = false →
        stagedHas (krs.foldl
          (fun st kr => stageScrapedRows seen sessionId kr.1 kr.2 st) staged) k
          = false := by
      intro krs
      induction krs with
      | nil => intro staged h; exact h
      | cons kr krs ih =>
        intro staged h
        rw [List.foldl_cons]
        exact ih _ (stageScrapedRows_not_staged seen sessionId kr.1 k hk kr.2 staged h)
    exact main keywordRows [] rfl
  · intro keyword rows staged h
    exact stageScrapedRows_find_preserved seen sessionId keyword k rows staged h

/-- C1 witness: with `job-42` already seen, a scraped record with that id
is never staged, and a concretely staged map is untouched. -/
theorem staging_no_reprocessing_witness :
    stagedHas (scrapeRun ["job-42"] "s1" [("java", [sampleRow42])]) "job-42" = false ∧
    (stagedFind (stageScrapedRows ["job-42"] "s1" "java" [sampleRow42]
        [("job-42", roleJ7)]) "job-42" = stagedFind [("job-42", roleJ7)] "job-42") := by
  have h := staging_no_reprocessing ["job-42"] "s1" [("java", [sampleRow42])]
    "job-42" (by decide)
  exact ⟨h.1, h.2 "java" [sampleRow42] [("job-42", roleJ7)] (by decide)⟩

/-! ### C4 — a fully-seen resumed session never writes output -/

theorem detailStep_fixed (outcome : SessionRole → DetailOutcome)
    (s : List String) (acc : List SessionRole) (role : SessionRole)
    (h : computeRoleKey role ∈ s) :
    detailStep outcome (s, acc) role = (s, acc) := by
  unfold detailStep
  cases houtcome : outcome role with
  | thrown e => rfl
  | fullTimeReject => rfl
  | verdict v =>
    cases hacc : v.accepted with
    | false => simp [hacc]
    | true => simp [hacc]; exact h

theorem evaluateDetailedJobs_allSeen (outcome : SessionRole → DetailOutcome)
    (roles : List SessionRole) :
    ∀ (s : List String) (acc : List SessionRole),
      (∀ r ∈ roles, computeRoleKey r ∈ s) →
      roles.foldl (detailStep outcome) (s, acc) = (s, acc) := by
  induction roles with
  | nil => intro s acc _; rfl
  | cons role roles ih =>
    intro s acc h
    rw [List.foldl_cons, detailStep_fixed outcome s acc role (h role (by simp))]
    exact ih s acc (fun r hr => h r (by simp [hr]))

/-- C4: resuming a session whose staged roles all carry Dedupe Keys already
in the Seen Store terminates without the canonical output CSV ever being
written, whatever the title filter and the per-candidate detail outcomes
return. -/
theorem runDiceResumed_allSeen_no_output (seen : List String)
    (stagedArray : List SessionRole) (titleOutcome : Except String (List String))
    (outcome : SessionRole → DetailOutcome)
    (h : ∀ r ∈ stagedArray, computeRoleKey r ∈ seen) :
    runDiceResumed seen stagedArray titleOutcome outcome = none := by
  by_cases hempty : stagedArray.isEmpty
  · simp [runDiceResumed, hempty]
  · cases titleOutcome with
    | error e => simp [runDiceResumed, hempty]
    | ok removalSet =>
      have hsub : ∀ r ∈ (diceTitleStage seen stagedArray removalSet).postSnapshot,
          computeRoleKey r ∈ seen := by
        intro r hr
        simp only [diceTitleStage, List.mem_filter] at hr
        exact h r hr.1
      have heval : evaluateDetailedJobs outcome
          (diceTitleStage seen stagedArray removalSet).postSnapshot
          (diceTitleStage seen stagedArray removalSet).seenAfter = (seen, []) := by
        have hseen : (diceTitleStage seen stagedArray removalSet).seenAfter = seen := rfl
        rw [hseen, evaluateDetailedJobs]
        exact evaluateDetailedJobs_allSeen outcome _ seen [] hsub
      simp [runDiceResumed, hempty, heval]

/-- C4 witness: a resumed session holding only the already-seen `job-7`
writes nothing even though the detail stage would accept it. -/
theorem runDiceResumed_allSeen_no_output_witness :
    runDiceResumed ["job-7"] [roleJ7] (.ok [])
      (fun _ => .verdict { accepted := true, reasoning := "looks great" }) = none :=
  runDiceResumed_allSeen_no_output ["job-7"] [roleJ7] (.ok [])
    (fun _ => .verdict { accepted := true, reasoning := "looks great" })
    (by intro r hr; simp at hr; subst hr; decide)

/-! ### C2 — Seen Store update after the Title Filter Stage

The claim holds for the vanguard orchestrator, which adds every
title-rejected row's Dedupe Key to the in-memory Seen Store before detail
evaluation.  It fails for the dice orchestrator: `runDiceSite` narrows the
snapshot but never adds the rejected keys to the Seen Store. -/

/-- C2 counterexample: in the dice title-filter block, staged role
`job-7`, marked for removal, is dropped from the post-title-filter
snapshot but its Dedupe Key is NOT added to the Seen Store (which stays
empty), contradicting the claim for the dice orchestrator. -/
theorem diceTitleStage_no_seen_update_counterexample :
    (diceTitleStage [] [roleJ7] ["job-7"]).postSnapshot = [] ∧
    computeRoleKey roleJ7 = "job-7" ∧
    (diceTitleStage [] [roleJ7] ["job-7"]).seenAfter = [] := by
  refine ⟨by decide, by decide, rfl⟩

theorem vanguardRejectStep_mem (removalSet : List String) (k : String)
    (rows : List SessionRole) :
    ∀ s : List String, k ∈ s →
      k ∈ rows.foldl (vanguardRejectStep removalSet) s := by
  induction rows with
  | nil => intro s hs; exact hs
  | cons row rows ih =>
    intro s hs
    rw [List.foldl_cons]
    apply ih
    unfold vanguardRejectStep
    split
    · exact mem_setAdd_of_mem _ _ _ hs
    · exact hs

theorem vanguardRejectStep_adds (removalSet : List String)
    (row : SessionRole) (hrej : removalSet.contains (titleKey row) = true)
    (rows : List SessionRole) :
    ∀ s : List String, row ∈ rows →
      computeRoleKey row ∈ rows.foldl (vanguardRejectStep removalSet) s := by
  induction rows with
  | nil => intro s hs; simp at hs
  | cons r rows ih =>
    intro s hs
    rw [List.foldl_cons]
    rcases List.mem_cons.mp hs with heq | htail
    · subst heq
      apply vanguardRejectStep_mem
      unfold vanguardRejectStep
      rw [if_pos hrej]
      exact mem_setAdd_self _ _
    · exact ih _ htail

/-- C2 (amended): after the Title Filter Stage, a staged row whose title
key is in the removal set never appears in the post-title-filter staging
snapshot (both in dice and in vanguard); in the vanguard orchestrator its
Dedupe Key is additionally added to the in-memory Seen Store before
Detail Evaluation begins, while the dice orchestrator leaves the Seen
Store unchanged at this point. -/
theorem titleStage_rejected_contract (seen : List String)
    (stagedArray : List SessionRole) (removalSet : List String)
    (row : SessionRole) (hmem : row ∈ stagedArray)
    (hrej : removalSet.contains (titleKey row) = true) :
    row ∉ (diceTitleStage seen stagedArray removalSet).postSnapshot ∧
    row ∉ (vanguardTitleStage seen stagedArray removalSet).postSnapshot ∧
    computeRoleKey row ∈ (vanguardTitleStage seen stagedArray removalSet).seenAfter ∧
    (diceTitleStage seen stagedArray removalSet).seenAfter = seen := by
  have hfilter : row ∉ stagedArray.filter
      (fun r => ! removalSet.contains (titleKey r)) := by
    intro hcontra
    rw [List.mem_filter] at hcontra
    rw [hrej] at hcontra
    simp at hcontra
  refine ⟨hfilter, hfilter, ?_, rfl⟩
  show computeRoleKey row ∈
    (if removalSet.isEmpty then seen
     else stagedArray.foldl (vanguardRejectStep removalSet) seen)
  have hne : removalSet.isEmpty = false := by
    cases removalSet with
    | nil => simp [List.contains] at hrej
    | cons a l => rfl
  rw [hne]
  simp only [Bool.false_eq_true, if_false]
  exact vanguardRejectStep_adds removalSet row hrej stagedArray seen hmem

/-- C2 witness: concrete rejection of `job-7` — dropped from both
snapshots, key added to the vanguard Seen Store. -/
theorem titleStage_rejected_contract_witness :
    roleJ7 ∉ (diceTitleStage [] [roleJ7] ["job-7"]).postSnapshot ∧
    roleJ7 ∉ (vanguardTitleStage [] [roleJ7] ["job-7"]).postSnapshot ∧
    computeRoleKey roleJ7 ∈ (vanguardTitleStage [] [roleJ7] ["job-7"]).seenAfter ∧
    (diceTitleStage [] [roleJ7] ["job-7"]).seenAfter = [] :=
  titleStage_rejected_contract [] [roleJ7] ["job-7"] roleJ7 (by simp) (by decide)

/-! ### C7 — detail-stage retry, backoff, and candidate isolation -/

theorem evaluateJobDetailLoop_all_fail (oracle : Nat → Except String DetailVerdict)
    (e : Nat → String)
    (hfail : ∀ a, 1 ≤ a → a ≤ 4 → oracle a = .error (e a)) :
    evaluateJobDetailLoop oracle 1 none =
      (.error (e 4), [sleepBackoff 1, sleepBackoff 2, sleepBackoff 3]) := by
  have h1 := hfail 1 (by omega) (by omega)
  have h2 := hfail 2 (by omega) (by omega)
  have h3 := hfail 3 (by omega) (by omega)
  have h4 := hfail 4 (by omega) (by omega)
  simp [evaluateJobDetailLoop, h1, h2, h3, h4]

/-- C7: when all four detail-evaluation attempts fail, `evaluateJobDetail`
propagates the last error (never an `accepted: false` verdict), the
backoff slept before each retry is `attempt * base_delay` for the attempt
that just failed; and a candidate whose evaluation throws is simply
skipped by the orchestrator loop, leaving every other candidate's
processing unchanged. -/
theorem detail_retry_and_isolation
    (prompts : List String) (hp : prompts.isEmpty = false)
    (oracle : Nat → Except String DetailVerdict) (e : Nat → String)
    (hfail : ∀ a, 1 ≤ a → a ≤ 4 → oracle a = .error (e a))
    (outcome : SessionRole → DetailOutcome) (bad : SessionRole) (err : String)
    (hbad : outcome bad = .thrown err)
    (pre post : List SessionRole) (seen : List String) :
    evaluateJobDetail prompts oracle =
      (.error (e 4), [sleepBackoff 1, sleepBackoff 2, sleepBackoff 3]) ∧
    evaluateDetailedJobs outcome (pre ++ bad :: post) seen =
      evaluateDetailedJobs outcome (pre ++ post) seen := by
  constructor
  · rw [evaluateJobDetail, hp]
    simp only [Bool.false_eq_true, if_false]
    exact evaluateJobDetailLoop_all_fail oracle e hfail
  · rw [evaluateDetailedJobs, evaluateDetailedJobs, List.foldl_append,
      List.foldl_append, List.foldl_cons]
    have hstep : ∀ st, detailStep outcome st bad = st := by
      intro st
      unfold detailStep
      rw [hbad]
    rw [hstep]

/-- C7 witness: four concrete failures propagate the error with backoffs
5s, 10s, 15s, and a throwing candidate leaves the rest untouched. -/
theorem detail_retry_and_isolation_witness :
    evaluateJobDetail ["p"] (fun _ => .error "boom") =
      (.error "boom", [sleepBackoff 1, sleepBackoff 2, sleepBackoff 3]) ∧
    evaluateDetailedJobs (fun _ => .thrown "boom") [roleJ7] [] =
      evaluateDetailedJobs (fun _ => .thrown "boom") [] [] := by
  have h := detail_retry_and_isolation ["p"] rfl (fun _ => .error "boom")
    (fun _ => "boom") (fun _ _ _ => rfl) (fun _ => .thrown "boom") roleJ7
    "boom" rfl [] [] []
  exact ⟨h.1, h.2⟩

/-! ### C9 — Seen Store I/O contract

The claim's "returns the empty set exactly when the file does not exist"
fails in one direction: an existing `seen.json` holding the empty JSON
array also loads as the empty set.  Everything else holds. -/

/-- C9 counterexample: an existing file containing the empty key array
loads as the empty set even though the file exists, refuting the
"exactly when the file does not exist" biconditional. -/
theorem loadSeenStore_empty_array_counterexample :
    loadSeenStore (.stringArray []) = .ok [] ∧
    SeenFile.stringArray [] ≠ SeenFile.absent := by
  exact ⟨rfl, by decide⟩

theorem setOfList_mem (xs : List String) (k : String) :
    k ∈ setOfList xs ↔ k ∈ xs := by
  have general : ∀ (ys : List String) (acc : List String),
      k ∈ ys.foldl setAdd acc ↔ k ∈ acc ∨ k ∈ ys := by
    intro ys
    induction ys with
    | nil => intro acc; simp
    | cons y ys ih =>
      intro acc
      rw [List.foldl_cons, ih, setAdd_mem]
      simp only [List.mem_cons]
      tauto
  rw [setOfList, general]
  simp

/-- C9 (amended): `load` returns the empty set when the file does not
exist (an existing file holding an empty key array also loads empty) and
propagates every other I/O or parse error; `save` writes the set as a
sorted list, so the persisted representation is deterministic for a given
set, and `load` after `save` recovers exactly the original set. -/
theorem seenStore_contract :
    (loadSeenStore .absent = .ok []) ∧
    (∀ e, loadSeenStore (.ioError e) = .error e) ∧
    (∀ s, loadSeenStore .malformed ≠ .ok s) ∧
    (∀ s₁ s₂, s₁.Nodup → s₂.Nodup → (∀ k, k ∈ s₁ ↔ k ∈ s₂) →
      saveSeenStore s₁ = saveSeenStore s₂) ∧
    (∀ s k, loadSeenStore (.stringArray (saveSeenStore s)) =
        .ok (setOfList (saveSeenStore s)) ∧
      (k ∈ setOfList (saveSeenStore s) ↔ k ∈ s)) := by
  refine ⟨rfl, fun e => rfl, fun s h => by simp [loadSeenStore] at h, ?_, ?_⟩
  · intro s₁ s₂ h₁ h₂ h
    have hperm : s₁.Perm s₂ := (List.perm_ext_iff_of_nodup h₁ h₂).mpr h
    have p₁ := List.perm_insertionSort (fun a b : String => a ≤ b) s₁
    have p₂ := List.perm_insertionSort (fun a b : String => a ≤ b) s₂
    exact List.eq_of_perm_of_sorted
      ((p₁.trans hperm).trans p₂.symm)
      (List.sorted_insertionSort _ s₁)
      (List.sorted_insertionSort _ s₂)
  · intro s k
    refine ⟨rfl, ?_⟩
    rw [setOfList_mem]
    unfold saveSeenStore
    exact (List.perm_insertionSort _ s).mem_iff

/-- C9 witness: concrete duplicate-free sets with equal membership
persist identically, and the round trip recovers the set. -/
theorem seenStore_contract_witness :
    loadSeenStore (.ioError "EACCES") = .error "EACCES" ∧
    saveSeenStore ["b", "a"] = saveSeenStore ["a", "b"] ∧
    ("a" ∈ setOfList (saveSeenStore ["b", "a"]) ↔ "a" ∈ ["b", "a"]) := by
  refine ⟨seenStore_contract.2.1 "EACCES", ?_, ?_⟩
  · exact seenStore_contract.2.2.2.1 ["b", "a"] ["a", "b"] (by decide) (by decide)
      (by intro k; simp [or_comm])
  · exact (seenStore_contract.2.2.2.2 ["b", "a"] "a").2

/-! ### C8 — title-filter batch partitioning and removal collection -/

theorem removeEntryStep_mono (acc : TitleFilterResult) (entry : RemoveEntry)
    (x : String) (h : x ∈ acc.removalSet) :
    x ∈ (removeEntryStep acc entry).removalSet := by
  unfold removeEntryStep
  split
  · exact h
  · exact mem_setAdd_of_mem _ _ _ h

theorem removeIdStep_mono (acc : TitleFilterResult) (id : String)
    (x : String) (h : x ∈ acc.removalSet) :
    x ∈ (removeIdStep acc id).removalSet := by
  unfold removeIdStep
  split
  · exact mem_setAdd_of_mem _ _ _ h
  · exact h

theorem foldl_removeEntryStep_mono (entries : List RemoveEntry) (x : String) :
    ∀ acc, x ∈ acc.removalSet →
      x ∈ (entries.foldl removeEntryStep acc).removalSet := by
  induction entries with
  | nil => intro acc h; exact h
  | cons e es ih =>
    intro acc h
    exact ih _ (removeEntryStep_mono acc e x h)

theorem foldl_removeIdStep_mono (ids : List String) (x : String) :
    ∀ acc, x ∈ acc.removalSet →
      x ∈ (ids.foldl removeIdStep acc).removalSet := by
  induction ids with
  | nil => intro acc h; exact h
  | cons i is ih =>
    intro acc h
    exact ih _ (removeIdStep_mono acc i x h)

theorem processTitleResponse_mono (p : AiIrrelevantResponse)
    (st : TitleFilterResult) (x : String) (h : x ∈ st.removalSet) :
    x ∈ (processTitleResponse p st).removalSet := by
  unfold processTitleResponse
  cases p.remove with
  | none =>
    cases p.removeJobIds with
    | none => exact h
    | some ids => exact foldl_removeIdStep_mono ids x st h
  | some entries =>
    cases p.removeJobIds with
    | none => exact foldl_removeEntryStep_mono entries x st h
    | some ids =>
      exact foldl_removeIdStep_mono ids x _ (foldl_removeEntryStep_mono entries x st h)

theorem foldl_removeEntryStep_adds (entries : List RemoveEntry)
    (entry : RemoveEntry) (hmem : entry ∈ entries)
    (hid : jsTrim (entry.job_id.getD "") ≠ "") :
    ∀ acc, jsTrim (entry.job_id.getD "") ∈
      (entries.foldl removeEntryStep acc).removalSet := by
  induction entries with
  | nil => simp at hmem
  | cons e es ih =>
    intro acc
    rw [List.foldl_cons]
    rcases List.mem_cons.mp hmem with heq | htail
    · subst heq
      apply foldl_removeEntryStep_mono
      unfold removeEntryStep
      rw [if_neg hid]
      exact mem_setAdd_self _ _
    · exact ih htail _

theorem foldl_removeIdStep_adds (ids : List String) (id : String)
    (hmem : id ∈ ids) (hid : jsTrim id ≠ "") :
    ∀ acc, jsTrim id ∈ (ids.foldl removeIdStep acc).removalSet := by
  induction ids with
  | nil => simp at hmem
  | cons i is ih =>
    intro acc
    rw [List.foldl_cons]
    rcases List.mem_cons.mp hmem with heq | htail
    · subst heq
      apply foldl_removeIdStep_mono
      unfold removeIdStep
      rw [if_pos (by simp [jsTruthy, hid])]
      exact mem_setAdd_self _ _
    · exact ih htail _

theorem processTitleResponse_adds_remove (p : AiIrrelevantResponse)
    (st : TitleFilterResult) (entries : List RemoveEntry)
    (hp : p.remove = some entries) (entry : RemoveEntry)
    (hmem : entry ∈ entries) (hid : jsTrim (entry.job_id.getD "") ≠ "") :
    jsTrim (entry.job_id.getD "") ∈ (processTitleResponse p st).removalSet := by
  unfold processTitleResponse
  rw [hp]
  cases p.removeJobIds with
  | none => exact foldl_removeEntryStep_adds entries entry hmem hid st
  | some ids =>
    exact foldl_removeIdStep_mono ids _ _
      (foldl_removeEntryStep_adds entries entry hmem hid st)

theorem processTitleResponse_adds_ids (p : AiIrrelevantResponse)
    (st : TitleFilterResult) (ids : List String)
    (hp : p.removeJobIds = some ids) (id : String)
    (hmem : id ∈ ids) (hid : jsTrim id ≠ "") :
    jsTrim id ∈ (processTitleResponse p st).removalSet := by
  unfold processTitleResponse
  rw [hp]
  cases p.remove with
  | none => exact foldl_removeIdStep_adds ids id hmem hid st
  | some entries => exact foldl_removeIdStep_adds ids id hmem hid _

theorem removeEntryStep_no_empty (acc : TitleFilterResult) (entry : RemoveEntry)
    (h : "" ∉ acc.removalSet) : "" ∉ (removeEntryStep acc entry).removalSet := by
  unfold removeEntryStep
  split
  · exact h
  · next hne =>
    intro hcontra
    rcases (setAdd_mem _ _ _).mp hcontra with hin | heq
    · exact h hin
    · exact hne heq.symm

theorem removeIdStep_no_empty (acc : TitleFilterResult) (id : String)
    (h : "" ∉ acc.removalSet) : "" ∉ (removeIdStep acc id).removalSet := by
  unfold removeIdStep
  split
  · next htr =>
    intro hcontra
    rcases (setAdd_mem _ _ _).mp hcontra with hin | heq
    · exact h hin
    · simp [jsTruthy, ← heq] at htr
  · exact h

theorem foldl_removeEntryStep_no_empty (entries : List RemoveEntry) :
    ∀ acc, "" ∉ acc.removalSet →
      "" ∉ (entries.foldl removeEntryStep acc).removalSet := by
  induction entries with
  | nil => intro acc h; exact h
  | cons e es ih => intro acc h; exact ih _ (removeEntryStep_no_empty acc e h)

theorem foldl_removeIdStep_no_empty (ids : List String) :
    ∀ acc, "" ∉ acc.removalSet →
      "" ∉ (ids.foldl removeIdStep acc).removalSet := by
  induction ids with
  | nil => intro acc h; exact h
  | cons i is ih => intro acc h; exact ih _ (removeIdStep_no_empty acc i h)

theorem processTitleResponse_no_empty (p : AiIrrelevantResponse)
    (st : TitleFilterResult) (h : "" ∉ st.removalSet) :
    "" ∉ (processTitleResponse p st).removalSet := by
  unfold processTitleResponse
  cases p.remove with
  | none =>
    cases p.removeJobIds with
    | none => exact h
    | some ids => exact foldl_removeIdStep_no_empty ids st h
  | some entries =>
    cases p.removeJobIds with
    | none => exact foldl_removeEntryStep_no_empty entries st h
    | some ids =>
      exact foldl_removeIdStep_no_empty ids _
        (foldl_removeEntryStep_no_empty entries st h)

theorem foldResponses_mono (resp : Nat → AiIrrelevantResponse) (x : String) :
    ∀ n i st, x ∈ st.removalSet →
      x ∈ (foldResponses resp i n st).removalSet := by
  intro n
  induction n with
  | zero => intro i st h; exact h
  | succ m ih =>
    intro i st h
    exact ih _ _ (processTitleResponse_mono (resp i) st x h)

theorem foldResponses_no_empty (resp : Nat → AiIrrelevantResponse) :
    ∀ n i st, "" ∉ st.removalSet →
      "" ∉ (foldResponses resp i n st).removalSet := by
  intro n
  induction n with
  | zero => intro i st h; exact h
  | succ m ih =>
    intro i st h
    exact ih _ _ (processTitleResponse_no_empty (resp i) st h)

theorem runTitleBatch_first_success (oracle : Nat → Except String AiIrrelevantResponse)
    (r : AiIrrelevantResponse) (h : oracle 1 = .ok r) :
    runTitleBatch oracle 1 none = .ok (r, 1) := by
  rw [runTitleBatch]
  simp [h]

theorem titleBatchesLoop_all_first_success
    (oracle : Nat → Nat → Except String AiIrrelevantResponse)
    (resp : Nat → AiIrrelevantResponse)
    (hfirst : ∀ i, oracle i 1 = .ok (resp i)) :
    ∀ (batches : List (List TitleEntry)) (i : Nat) (st : TitleFilterResult)
      (req : Nat),
      titleBatchesLoop oracle i batches st req =
        .ok (foldResponses resp i batches.length st, req + batches.length) := by
  intro batches
  induction batches with
  | nil => intro i st req; simp [titleBatchesLoop, foldResponses]
  | cons b bs ih =>
    intro i st req
    rw [titleBatchesLoop, runTitleBatch_first_success (oracle i) (resp i) (hfirst i)]
    show titleBatchesLoop oracle (i + 1) bs (processTitleResponse (resp i) st)
      (req + 1) = _
    rw [ih (i + 1) (processTitleResponse (resp i) st) (req + 1)]
    simp only [List.length_cons, foldResponses]
    have harith : req + 1 + bs.length = req + (bs.length + 1) := by omega
    rw [harith]

/-- C8: when every batch's first classification attempt succeeds, the
title filter issues exactly `⌈m / BATCH_SIZE⌉` requests for `m` staged
entries (`BATCH_SIZE = 50`); every non-blank removal id carried by any
batch response appears (trimmed) in the returned removal set; the empty
(or whitespace-only) ids of a response are ignored; and no blank id ever
enters the removal set. -/
theorem findIrrelevantJobIds_contract (prompts : List String)
    (oracle : Nat → Nat → Except String AiIrrelevantResponse)
    (resp : Nat → AiIrrelevantResponse) (entries : List TitleEntry)
    (hne : entries.isEmpty = false) (hp : prompts.isEmpty = false)
    (hfirst : ∀ i, oracle i 1 = .ok (resp i)) :
    (∃ result : TitleFilterResult,
      findIrrelevantJobIds prompts oracle entries =
        .ok (result, (entries.length + titleBatchSize - 1) / titleBatchSize) ∧
      (∀ i res, i < (chunksOf titleBatchSize entries).length →
        (resp i).remove = some res →
        ∀ entry ∈ res, jsTrim (entry.job_id.getD "") ≠ "" →
          jsTrim (entry.job_id.getD "") ∈ result.removalSet) ∧
      (∀ i ids, i < (chunksOf titleBatchSize entries).length →
        (resp i).removeJobIds = some ids →
        ∀ id ∈ ids, jsTrim id ≠ "" → jsTrim id ∈ result.removalSet) ∧
      "" ∉ result.removalSet) ∧
    (∀ (entry : RemoveEntry) (rest : List RemoveEntry)
        (more : Option (List String)) (st : TitleFilterResult),
      jsTrim (entry.job_id.getD "") = "" →
      processTitleResponse ⟨some (entry :: rest), more⟩ st =
        processTitleResponse ⟨some rest, more⟩ st) ∧
    (∀ (id : String) (rest : List String) (rm : Option (List RemoveEntry))
        (st : TitleFilterResult),
      jsTrim id = "" →
      processTitleResponse ⟨rm, some (id :: rest)⟩ st =
        processTitleResponse ⟨rm, some rest⟩ st) := by
  refine ⟨?_, ?_, ?_⟩
  · have hadds : ∀ n i st,
        (∀ j res, i ≤ j → j < i + n → (resp j).remove = some res →
          ∀ entry ∈ res, jsTrim (entry.job_id.getD "") ≠ "" →
            jsTrim (entry.job_id.getD "") ∈ (foldResponses resp i n st).removalSet) ∧
        (∀ j ids, i ≤ j → j < i + n → (resp j).removeJobIds = some ids →
          ∀ id ∈ ids, jsTrim id ≠ "" →
            jsTrim id ∈ (foldResponses resp i n st).removalSet) := by
      intro n
      induction n with
      | zero => intro i st; exact ⟨fun j res h1 h2 => absurd h2 (by omega),
          fun j ids h1 h2 => absurd h2 (by omega)⟩
      | succ m ih =>
        intro i st
        constructor
        · intro j res hle hlt hres entry hmem hid
          rcases Nat.eq_or_lt_of_le hle with heq | hgt
          · subst heq
            exact foldResponses_mono resp _ m (i + 1) _
              (processTitleResponse_adds_remove (resp i) st res hres entry hmem hid)
          · exact (ih (i + 1) (processTitleResponse (resp i) st)).1 j res hgt
              (by omega) hres entry hmem hid
        · intro j ids hle hlt hids id hmem hid
          rcases Nat.eq_or_lt_of_le hle with heq | hgt
          · subst heq
            exact foldResponses_mono resp _ m (i + 1) _
              (processTitleResponse_adds_ids (resp i) st ids hids id hmem hid)
          · exact (ih (i + 1) (processTitleResponse (resp i) st)).2 j ids hgt
              (by omega) hids id hmem hid
    refine ⟨foldResponses resp 0 (chunksOf titleBatchSize entries).length ⟨[], []⟩,
      ?_, ?_, ?_, ?_⟩
    · rw [findIrrelevantJobIds, hne]
      simp only [Bool.false_eq_true, if_false, hp]
      rw [titleBatchesLoop_all_first_success oracle resp hfirst]
      rw [chunksOf_length titleBatchSize (by decide) entries]
      simp
    · intro i res hi hres entry hmem hid
      exact (hadds (chunksOf titleBatchSize entries).length 0 ⟨[], []⟩).1 i res
        (by omega) (by omega) hres entry hmem hid
    · intro i ids hi hids id hmem hid
      exact (hadds (chunksOf titleBatchSize entries).length 0 ⟨[], []⟩).2 i ids
        (by omega) (by omega) hids id hmem hid
    · exact foldResponses_no_empty resp _ 0 ⟨[], []⟩ (by simp)
  · intro entry rest more st hid
    simp [processTitleResponse, removeEntryStep, hid]
  · intro id rest rm st hid
    simp [processTitleResponse, removeIdStep, hid, jsTruthy]

/-- C8 witness: one batch of three entries issues one request
(`⌈3/50⌉ = 1`); the trimmed id `j7` and the raw id `x1` reach the removal
set; blank ids are ignored. -/
theorem findIrrelevantJobIds_contract_witness :
    (∃ result : TitleFilterResult,
      findIrrelevantJobIds ["p"]
        (fun _ _ => .ok ⟨some [⟨some " j7 ", some "bad title"⟩], some ["x1"]⟩)
        [⟨"t1", "c", "l", "u1", "j7"⟩, ⟨"t2", "c", "l", "u2", "x1"⟩,
         ⟨"t3", "c", "l", "u3", "k9"⟩] =
        .ok (result, (3 + titleBatchSize - 1) / titleBatchSize) ∧
      "j7" ∈ result.removalSet ∧ "x1" ∈ result.removalSet ∧
      "" ∉ result.removalSet) ∧
    (∀ st : TitleFilterResult,
      processTitleResponse ⟨some [⟨some "  ", none⟩], none⟩ st =
        processTitleResponse ⟨some [], none⟩ st) := by
  have h := findIrrelevantJobIds_contract ["p"]
    (fun _ _ => .ok ⟨some [⟨some " j7 ", some "bad title"⟩], some ["x1"]⟩)
    (fun _ => ⟨some [⟨some " j7 ", some "bad title"⟩], some ["x1"]⟩)
    [⟨"t1", "c", "l", "u1", "j7"⟩, ⟨"t2", "c", "l", "u2", "x1"⟩,
     ⟨"t3", "c", "l", "u3", "k9"⟩]
    rfl rfl (fun _ => rfl)
  obtain ⟨⟨result, heq, hrem, hids, hemp⟩, hign, _⟩ := h
  refine ⟨⟨result, heq, ?_, ?_, hemp⟩, fun st => hign ⟨some "  ", none⟩ [] none st (by decide)⟩
  · have := hrem 0 [⟨some " j7 ", some "bad title"⟩]
      (by rw [chunksOf_length titleBatchSize (by decide)]; decide) rfl
      ⟨some " j7 ", some "bad title"⟩ (by simp) (by decide)
    simpa using this
  · have := hids 0 ["x1"]
      (by rw [chunksOf_length titleBatchSize (by decide)]; decide) rfl
      "x1" (by simp) (by decide)
    simpa using this

/-! ### CSV round-trip core

`parseCsvChars` inverts the two field encodings the writers use: a raw
field free of quotes and commas, and a quote-wrapped field with doubled
quotes. -/

theorem dupQuotes_data (s : String) : (dupQuotes s).data = dupChars s.data := rfl

theorem parseCsvChars_raw (s : List Char) (h : ∀ c ∈ s, c ≠ '"' ∧ c ≠ ',') :
    ∀ (cur rest : List Char),
      parseCsvChars (s ++ rest) false cur = parseCsvChars rest false (cur ++ s) := by
  induction s with
  | nil => intro cur rest; simp
  | cons c cs ih =>
    intro cur rest
    have hc := h c (List.mem_cons_self c cs)
    rw [List.cons_append,
      show parseCsvChars (c :: (cs ++ rest)) false cur =
        parseCsvChars (cs ++ rest) false (cur ++ [c]) from by
          simp [parseCsvChars, hc.1, hc.2],
      ih (fun x hx => h x (List.mem_cons_of_mem c hx)) (cur ++ [c]) rest]
    simp [List.append_assoc]

theorem parseCsvChars_quoted (s : List Char) :
    ∀ (cur rest : List Char), (rest = [] ∨ ∃ r', rest = ',' :: r') →
      parseCsvChars (dupChars s ++ '"' :: rest) true cur =
        parseCsvChars rest false (cur ++ s) := by
  induction s with
  | nil =>
    intro cur rest hrest
    simp only [dupChars, List.flatMap_nil, List.nil_append, List.append_nil]
    rcases hrest with rfl | ⟨r', rfl⟩
    · simp [parseCsvChars]
    · simp [parseCsvChars]
  | cons c cs ih =>
    intro cur rest hrest
    by_cases hc : c = '"'
    · subst hc
      rw [show dupChars ('"' :: cs) = '"' :: '"' :: dupChars cs from by
            simp [dupChars],
        List.cons_append, List.cons_append,
        show parseCsvChars ('"' :: '"' :: (dupChars cs ++ '"' :: rest)) true cur =
          parseCsvChars (dupChars cs ++ '"' :: rest) true (cur ++ ['"']) from by
            simp [parseCsvChars],
        ih (cur ++ ['"']) rest hrest]
      simp [List.append_assoc]
    · rw [show dupChars (c :: cs) = c :: dupChars cs from by simp [dupChars, hc],
        List.cons_append,
        show parseCsvChars (c :: (dupChars cs ++ '"' :: rest)) true cur =
          parseCsvChars (dupChars cs ++ '"' :: rest) true (cur ++ [c]) from by
            simp [parseCsvChars, hc],
        ih (cur ++ [c]) rest hrest]
      simp [List.append_assoc]

theorem fieldEncodes_raw (f : String) (h : ∀ c ∈ f.data, c ≠ '"' ∧ c ≠ ',') :
    fieldEncodes f f := by
  intro rest cur _
  exact parseCsvChars_raw f.data h cur rest

theorem fieldEncodes_quoted (f : String) :
    fieldEncodes ("\"" ++ dupQuotes f ++ "\"") f := by
  intro rest cur hrest
  have hdata : ("\"" ++ dupQuotes f ++ "\"").data = '"' :: (dupChars f.data ++ ['"']) := by
    show (("\"" ++ dupQuotes f) ++ "\"").data = _
    rw [String.data_append, String.data_append, dupQuotes_data]
    rfl
  rw [hdata]
  rw [List.cons_append, List.append_assoc, List.singleton_append]
  rw [show parseCsvChars ('"' :: (dupChars f.data ++ ('"' :: rest))) false cur =
    parseCsvChars (dupChars f.data ++ ('"' :: rest)) true cur from by
      simp [parseCsvChars]]
  exact parseCsvChars_quoted f.data cur rest hrest

/-- A whole line: the concatenation of encoded fields, comma-separated,
parses back to exactly the field values. -/
theorem parseCsvLine_fields :
    ∀ (pairs : List (String × String)), pairs ≠ [] →
      (∀ p ∈ pairs, fieldEncodes p.1 p.2) →
      parseCsvLine (joinComma (pairs.map Prod.fst)) = pairs.map Prod.snd := by
  have core : ∀ (pairs : List (String × String)), pairs ≠ [] →
      (∀ p ∈ pairs, fieldEncodes p.1 p.2) →
      parseCsvChars (joinComma (pairs.map Prod.fst)).data false [] =
        pairs.map (fun p => p.2.data) := by
    intro pairs
    induction pairs with
    | nil => intro h; exact absurd rfl h
    | cons p ps ih =>
      intro _ henc
      cases ps with
      | nil =>
        simp only [List.map_cons, List.map_nil, joinComma]
        have := henc p (List.mem_cons_self p []) [] [] (Or.inl rfl)
        rw [List.append_nil] at this
        rw [this]
        simp [parseCsvChars]
      | cons q qs =>
        simp only [List.map_cons, joinComma]
        have hdata : (p.1 ++ "," ++ joinComma (q.1 :: (qs.map Prod.fst))).data =
            p.1.data ++ (',' :: (joinComma (q.1 :: (qs.map Prod.fst))).data) := by
          show ((p.1 ++ ",") ++ joinComma _).data = _
          rw [String.data_append, String.data_append]
          simp
        rw [hdata]
        rw [henc p (List.mem_cons_self p (q :: qs))
          (',' :: (joinComma (q.1 :: (qs.map Prod.fst))).data) []
          (Or.inr ⟨_, rfl⟩)]
        rw [List.nil_append,
          show parseCsvChars (',' :: (joinComma (q.1 :: (qs.map Prod.fst))).data)
            false p.2.data =
            p.2.data :: parseCsvChars (joinComma (q.1 :: (qs.map Prod.fst))).data
              false [] from by simp [parseCsvChars]]
        have ihres := ih (by simp) (fun x hx => henc x (List.mem_cons_of_mem p hx))
        simp only [List.map_cons] at ihres
        rw [ihres]
  intro pairs hne henc
  rw [parseCsvLine, core pairs hne henc, List.map_map]
  apply List.map_congr_left
  intro p _
  rfl

/-! ### C5 — output CSV prepend semantics -/

theorem fieldEncodes_fcFormatField (f : String) :
    fieldEncodes (fcFormatField f) f := by
  unfold fcFormatField
  split
  · exact fieldEncodes_quoted f
  · next hq =>
    apply fieldEncodes_raw
    intro c hc
    rw [show (¬ fcNeedsQuote f = true) = (¬ (jsIncludes f ',' ||
      jsIncludes f '"' || jsIncludes f '\n' || jsIncludes f '\r') = true)
      from rfl] at hq
    simp only [Bool.or_eq_true, not_or] at hq
    obtain ⟨⟨⟨hcomma, hquote⟩, _⟩, _⟩ := hq
    constructor
    · intro heq
      subst heq
      exact hquote (by simp [jsIncludes, List.elem_iff, hc])
    · intro heq
      subst heq
      exact hcomma (by simp [jsIncludes, List.elem_iff, hc])

theorem fcParseLine_fcFormatRow (r : JobRow)
    (h : ∀ f ∈ jobRowFields r, jsTrim f = f) :
    fcParseLine (fcFormatRow r) = jobRowFields r := by
  have hline : parseCsvLine (fcFormatRow r) = jobRowFields r := by
    have hpairs := parseCsvLine_fields
      ((jobRowFields r).map (fun f => (fcFormatField f, f)))
      (by simp [jobRowFields])
      (by intro p hp
          simp only [List.mem_map] at hp
          obtain ⟨f, _, rfl⟩ := hp
          exact fieldEncodes_fcFormatField f)
    simp only [List.map_map] at hpairs
    rw [show ((jobRowFields r).map ((fun p : String × String => p.1) ∘
        (fun f => (fcFormatField f, f)))) = (jobRowFields r).map fcFormatField
        from rfl,
      show ((jobRowFields r).map ((fun p : String × String => p.2) ∘
        (fun f => (fcFormatField f, f)))) = (jobRowFields r).map id
        from rfl, List.map_id] at hpairs
    exact hpairs
  rw [fcParseLine, hline]
  conv_rhs => rw [← List.map_id (jobRowFields r)]
  exact List.map_congr_left h

theorem normalizeParsedRow_fields (r : JobRow) (h : r.job_id.isSome = true) :
    normalizeParsedRow (jobRowFields r) = r := by
  obtain ⟨j, hj⟩ := Option.isSome_iff_exists.mp h
  cases r with
  | mk site title company location posted url job_id scraped_at =>
    simp only at hj
    subst hj
    simp [normalizeParsedRow, jobRowFields, List.getD]

theorem normalizeRow_eq_self (r : JobRow) (h : r.job_id.isSome = true) :
    normalizeRow r = r := by
  obtain ⟨j, hj⟩ := Option.isSome_iff_exists.mp h
  cases r with
  | mk site title company location posted url job_id scraped_at =>
    simp only at hj
    subst hj
    simp [normalizeRow]

theorem parseExistingContent_writeRows (rows : List JobRow)
    (h : ∀ r ∈ rows, rowWellFormed r) :
    parseExistingContent (writeRows rows) = rows := by
  rw [writeRows, parseExistingContent, List.map_map]
  conv_rhs => rw [← List.map_id rows]
  apply List.map_congr_left
  intro r hr
  show normalizeParsedRow (fcParseLine (fcFormatRow r)) = r
  rw [fcParseLine_fcFormatRow r (fun f hf => ((h r hr).1 f hf).1),
    normalizeParsedRow_fields r (h r hr).2]

/-- C5: appending new rows `[C, D]` to an output file holding rows
`[A, B]` produces a file with exactly one header line at the top followed
by the data rows `[C, D, A, B]` in that order (new rows prepended); when
the file does not exist the result is `[C, D]` under one header.  The
data-row lists are confirmed both structurally (the lines of the file)
and semantically (parsing the produced file back). -/
theorem appendJobRows_prepend (A B C D : JobRow)
    (hA : rowWellFormed A) (hB : rowWellFormed B)
    (hC : rowWellFormed C) (hD : rowWellFormed D) :
    appendJobRows (some (writeRows [A, B])) [C, D] =
      some (csvHeaderLine ::
        [fcFormatRow C, fcFormatRow D, fcFormatRow A, fcFormatRow B]) ∧
    parseExistingContent (csvHeaderLine ::
        [fcFormatRow C, fcFormatRow D, fcFormatRow A, fcFormatRow B]) =
      [C, D, A, B] ∧
    appendJobRows none [C, D] =
      some (csvHeaderLine :: [fcFormatRow C, fcFormatRow D]) ∧
    parseExistingContent (csvHeaderLine :: [fcFormatRow C, fcFormatRow D]) =
      [C, D] := by
  have hCD : ([C, D].map normalizeRow) = [C, D] := by
    simp [normalizeRow_eq_self C hC.2, normalizeRow_eq_self D hD.2]
  have hparseAB : parseExistingContent (writeRows [A, B]) = [A, B] :=
    parseExistingContent_writeRows [A, B]
      (by intro r hr; rcases List.mem_cons.mp hr with rfl | hr
          · exact hA
          · simp at hr; subst hr; exact hB)
  refine ⟨?_, ?_, ?_, ?_⟩
  · rw [appendJobRows]
    simp only [List.isEmpty_cons, Bool.false_eq_true, if_false]
    rw [hCD, hparseAB]
    rfl
  · exact parseExistingContent_writeRows [C, D, A, B]
      (by intro r hr
          rcases List.mem_cons.mp hr with rfl | hr
          · exact hC
          rcases List.mem_cons.mp hr with rfl | hr
          · exact hD
          rcases List.mem_cons.mp hr with rfl | hr
          · exact hA
          simp at hr; subst hr; exact hB)
  · rw [appendJobRows]
    simp only [List.isEmpty_cons, Bool.false_eq_true, if_false]
    rw [hCD]
    rfl
  · exact parseExistingContent_writeRows [C, D]
      (by intro r hr; rcases List.mem_cons.mp hr with rfl | hr
          · exact hC
          · simp at hr; subst hr; exact hD)

/-- C5 witness: concrete rows (one with an embedded comma, exercising the
quoting path) are prepended ahead of the existing rows under one header. -/
theorem appendJobRows_prepend_witness :
    appendJobRows (some (writeRows [rowA5, rowB5])) [rowC5, rowD5] =
      some (csvHeaderLine ::
        [fcFormatRow rowC5, fcFormatRow rowD5, fcFormatRow rowA5, fcFormatRow rowB5]) ∧
    parseExistingContent (csvHeaderLine ::
        [fcFormatRow rowC5, fcFormatRow rowD5, fcFormatRow rowA5, fcFormatRow rowB5]) =
      [rowC5, rowD5, rowA5, rowB5] ∧
    appendJobRows none [rowC5, rowD5] =
      some (csvHeaderLine :: [fcFormatRow rowC5, fcFormatRow rowD5]) ∧
    parseExistingContent (csvHeaderLine :: [fcFormatRow rowC5, fcFormatRow rowD5]) =
      [rowC5, rowD5] :=
  appendJobRows_prepend rowA5 rowB5 rowC5 rowD5
    (by decide) (by decide) (by decide) (by decide)

/-! ### C6 — Session Staging Store round trip

The round trip fails as claimed: `escapeCsv` only quotes values containing
a comma, so a double quote in any field (even with newline-free values)
corrupts the parse and drops the row.  With quote-free fields (and the
other well-formedness conditions the writer/reader pair needs) the Dedupe
Key list is preserved exactly. -/

theorem fieldEncodes_raw_of_not_mem (f : String) (hq : '"' ∉ f.data)
    (hc : ',' ∉ f.data) : fieldEncodes f f :=
  fieldEncodes_raw f (fun _ hcm =>
    ⟨fun h => hq (h ▸ hcm), fun h => hc (h ▸ hcm)⟩)

theorem fieldEncodes_escapeCsv (f : String) (hq : '"' ∉ f.data) :
    fieldEncodes (escapeCsv f) f := by
  unfold escapeCsv
  split
  · next htr =>
    have : f = "" := by
      by_contra hne
      exact htr (by simp [jsTruthy, hne])
    rw [this]
    exact fieldEncodes_raw_of_not_mem "" (by decide) (by decide)
  · split
    · next hcomma =>
      apply fieldEncodes_raw_of_not_mem f hq
      intro hmem
      exact hcomma (by simp [jsIncludes, List.elem_iff, hmem])
    · exact fieldEncodes_quoted f

theorem sessionRoleLine_parses (r : SessionRole) (h : roleWellFormed r) :
    parseCsvLine (sessionRoleLine r) = sessionFields r := by
  have hfield : ∀ f ∈ sessionFields r, '"' ∉ f.data := fun f hf => (h.1 f hf).1
  have hraw : ∀ f ∈ sessionRawFields r, ',' ∉ f.data := h.2.1
  have hpairs := parseCsvLine_fields
    [(r.session_id, r.session_id), (r.keyword, r.keyword), (r.site, r.site),
     (escapeCsv r.title, r.title), (escapeCsv r.company, r.company),
     (escapeCsv r.location, r.location), (escapeCsv r.posted, r.posted),
     (r.url, r.url), (r.job_id.getD "", r.job_id.getD ""),
     (r.scraped_at, r.scraped_at)]
    (by simp)
    (by intro p hp
        simp only [List.mem_cons, List.not_mem_nil, or_false] at hp
        rcases hp with rfl | rfl | rfl | rfl | rfl | rfl | rfl | rfl | rfl | rfl
        · exact fieldEncodes_raw_of_not_mem _
            (hfield _ (by simp [sessionFields])) (hraw _ (by simp [sessionRawFields]))
        · exact fieldEncodes_raw_of_not_mem _
            (hfield _ (by simp [sessionFields])) (hraw _ (by simp [sessionRawFields]))
        · exact fieldEncodes_raw_of_not_mem _
            (hfield _ (by simp [sessionFields])) (hraw _ (by simp [sessionRawFields]))
        · exact fieldEncodes_escapeCsv _ (hfield _ (by simp [sessionFields]))
        · exact fieldEncodes_escapeCsv _ (hfield _ (by simp [sessionFields]))
        · exact fieldEncodes_escapeCsv _ (hfield _ (by simp [sessionFields]))
        · exact fieldEncodes_escapeCsv _ (hfield _ (by simp [sessionFields]))
        · exact fieldEncodes_raw_of_not_mem _
            (hfield _ (by simp [sessionFields])) (hraw _ (by simp [sessionRawFields]))
        · exact fieldEncodes_raw_of_not_mem _
            (hfield _ (by simp [sessionFields])) (hraw _ (by simp [sessionRawFields]))
        · exact fieldEncodes_raw_of_not_mem _
            (hfield _ (by simp [sessionFields])) (hraw _ (by simp [sessionRawFields])))
  exact hpairs

theorem sessionRoleLine_ne_empty (r : SessionRole) : sessionRoleLine r ≠ "" := by
  intro hcontra
  have hd := congrArg String.data hcontra
  rw [show sessionRoleLine r = r.session_id ++ "," ++
    joinComma [r.keyword, r.site, escapeCsv r.title, escapeCsv r.company,
      escapeCsv r.location, escapeCsv r.posted, r.url, r.job_id.getD "",
      r.scraped_at] from rfl] at hd
  rw [String.data_append, String.data_append] at hd
  simp at hd

theorem filterMap_congr_some {α β : Type} (l : List α) (f : α → Option β)
    (g : α → β) (h : ∀ a ∈ l, f a = some (g a)) : l.filterMap f = l.map g := by
  induction l with
  | nil => rfl
  | cons a as ih =>
    rw [List.filterMap_cons, h a (by simp), List.map_cons,
      ih (fun x hx => h x (by simp [hx]))]

theorem parseSessionRow_fields (r : SessionRole) (hurl : jsTruthy r.url = true) :
    parseSessionRow (sessionFields r) = some (canonRole r) := by
  cases r with
  | mk session_id keyword site title company location posted url job_id scraped_at =>
    simp only [jsTruthy] at hurl
    simp [parseSessionRow, sessionFields, canonRole,
      List.getD_cons_zero, List.getD_cons_succ, jsTruthy, hurl]

theorem readSessionCsv_writeSessionRoles (rows : List SessionRole)
    (h : ∀ r ∈ rows, roleWellFormed r) :
    readSessionCsv (writeSessionRoles rows) = rows.map canonRole := by
  rw [readSessionCsv, writeSessionRoles]
  rw [if_neg (by
    intro hall
    rw [List.all_cons] at hall
    have : (jsTrim sessionHeaderLine = "") := by
      have hb := Bool.and_elim_left hall
      simpa using hb
    exact absurd this (by decide))]
  have hmap : (sessionHeaderLine :: (rows.map sessionRoleLine ++ [""])).map jsTrim =
      sessionHeaderLine :: (rows.map sessionRoleLine ++ [""]) := by
    conv_rhs => rw [← List.map_id (sessionHeaderLine :: (rows.map sessionRoleLine ++ [""]))]
    apply List.map_congr_left
    intro l hl
    simp only [List.mem_cons, List.mem_append, List.mem_map, List.not_mem_nil,
      or_false] at hl
    rcases hl with rfl | ⟨r, hr, rfl⟩ | rfl
    · decide
    · exact (h r hr).2.2.2.1
    · decide
  rw [hmap]
  have hfilter : (sessionHeaderLine :: (rows.map sessionRoleLine ++ [""])).filter
      (fun l => l ≠ "") = sessionHeaderLine :: rows.map sessionRoleLine := by
    rw [List.filter_cons, if_pos (by decide), List.filter_append]
    rw [show ([""] : List String).filter (fun l => l ≠ "") = [] from by decide]
    rw [List.append_nil]
    congr 1
    rw [List.filter_eq_self]
    intro l hl
    obtain ⟨r, _, rfl⟩ := List.mem_map.mp hl
    simp [sessionRoleLine_ne_empty r]
  rw [hfilter]
  rw [List.filterMap_cons]
  rw [show (if jsStartsWith (jsToLower sessionHeaderLine) "session_id," then
      (none : Option SessionRole)
    else parseSessionRow (parseCsvLine sessionHeaderLine)) = none from by decide]
  rw [List.filterMap_map]
  apply filterMap_congr_some
  intro r hr
  show (if jsStartsWith (jsToLower (sessionRoleLine r)) "session_id," then none
    else parseSessionRow (parseCsvLine (sessionRoleLine r))) = some (canonRole r)
  rw [if_neg (by rw [(h r hr).2.2.2.2]; exact Bool.false_ne_true)]
  rw [sessionRoleLine_parses r (h r hr)]
  exact parseSessionRow_fields r (h r hr).2.2.1

theorem computeRoleKey_canon (r : SessionRole) :
    computeRoleKey (canonRole r) = computeRoleKey r := by
  cases r with
  | mk session_id keyword site title company location posted url job_id scraped_at =>
    cases job_id with
    | none => simp [canonRole, jsTruthy]
    | some j =>
      by_cases hj : j = ""
      · subst hj
        simp [canonRole, jsTruthy, computeRoleKey, SessionRole.toJobRow,
          computeJobKey, keyBase]
      · simp [canonRole, jsTruthy, hj]

/-- C6 counterexample: a staged role whose fields are all newline-free but
whose title carries a double quote is lost entirely by the round trip —
`escapeCsv` writes the quote raw, the reader's quote handling swallows the
commas, the row parses to fewer than ten cells and is dropped, so the key
multiset `[J1]` becomes `[]`. -/
theorem sessionRoles_roundtrip_counterexample :
    (∀ f ∈ sessionFields roleQ, '\n' ∉ f.data) ∧
    (readSessionCsv (writeSessionRoles [roleQ])).map computeRoleKey = [] ∧
    [roleQ].map computeRoleKey = ["J1"] := by
  refine ⟨by decide, by decide, by decide⟩

/-- C6 (amended): writing a staged-role list with `writeSessionRoles` and
reading it back with `readSessionCsv` preserves the Dedupe Key list (hence
multiset) exactly, for every staged-role list whose field values are free
of newlines and double quotes, whose raw-written fields (`session_id`,
`keyword`, `site`, `url`, `job_id`, `scraped_at`) are free of commas,
whose `url` is non-empty, and whose serialized lines are unchanged by
whitespace trimming and not mistaken for the header line. -/
theorem sessionRoles_key_roundtrip (rows : List SessionRole)
    (h : ∀ r ∈ rows, roleWellFormed r) :
    (readSessionCsv (writeSessionRoles rows)).map computeRoleKey =
      rows.map computeRoleKey := by
  rw [readSessionCsv_writeSessionRoles rows h, List.map_map]
  apply List.map_congr_left
  intro r _
  exact computeRoleKey_canon r

/-- C6 witness: a concrete well-formed staged role round-trips with its
key intact. -/
theorem sessionRoles_key_roundtrip_witness :
    (readSessionCsv (writeSessionRoles [roleJ7])).map computeRoleKey =
      [roleJ7].map computeRoleKey :=
  sessionRoles_key_roundtrip [roleJ7]
    (by intro r hr; simp at hr; subst hr; decide)

end JobScraper
